import Mathlib

/-!
Verification development for the `commands` repository: an in-process
operation manager with undo/redo history, cooperative cancellation and
graceful shutdown.  The Go source contains several overlapping iterations
of the engine; each definition below is a shallow embedding of one of
them and the doc comment names the source location it was translated from.
-/

namespace Commands

/-- Embedding of the `Operation` values held in the history ledger
(src/unnamed/part_001, `OpManager.undoable`/`redoable`).  The Go code
compares operations by interface equality (`o == op`) and reads their
command via `op.Cmd()`; we model an operation as its runtime-unique id
together with the identity of its command sort. -/
structure Operation where
  id : Nat
  cmd : Nat
deriving DecidableEq, Repr

/-- The History Ledger of the `commands` engine (src/unnamed/part_001,
lines 208-216): the `undoable` and `redoable` slices of `OpManager`.
Go appends at the end of the slice, so the top of each history is the
last list element. -/
structure OpManagerState where
  undoable : List Operation
  redoable : List Operation
deriving DecidableEq, Repr

/-- Translation of the removal loop used by `hasBeenUndone` and
`hasBeenRedone` (src/unnamed/part_001, lines 245-250 and 267-272): scan
the slice, splice out the first element equal to `a`, then `break`. -/
def removeFirst : List Operation → Operation → List Operation
  | [], _ => []
  | o :: rest, a => if o = a then rest else o :: removeFirst rest a

/-- `OpManager.hasBeenDone` (src/unnamed/part_001, lines 236-240):
append the operation to `undoable`. -/
def hasBeenDone (s : OpManagerState) (o : Operation) : OpManagerState :=
  { s with undoable := s.undoable ++ [o] }

/-- `OpManager.hasBeenUndone` (src/unnamed/part_001, lines 242-252):
remove the first occurrence of the operation from `undoable` (no-op when
absent) and append it to `redoable`. -/
def hasBeenUndone (s : OpManagerState) (o : Operation) : OpManagerState :=
  { undoable := removeFirst s.undoable o, redoable := s.redoable ++ [o] }

/-- `OpManager.hasBeenRedone` (src/unnamed/part_001, lines 264-274):
remove the first occurrence of the operation from `redoable` (no-op when
absent) and append it to `undoable`. -/
def hasBeenRedone (s : OpManagerState) (o : Operation) : OpManagerState :=
  { undoable := s.undoable ++ [o], redoable := removeFirst s.redoable o }

/-- `OpManager.CanUndo` (src/unnamed/part_001, lines 340-342). -/
def CanUndo (s : OpManagerState) : Bool := s.undoable.length > 0

/-- `OpManager.CanRedo` (src/unnamed/part_001, lines 345-347). -/
def CanRedo (s : OpManagerState) : Bool := s.redoable.length > 0

/-- `OpManager.UndoCmd` (src/unnamed/part_001, lines 350-355): `nil` when
`undoable` is empty, otherwise the command of its last element.
`List.getLast?` returns `none` exactly when the list is empty, matching
the `len == 0` guard in the source. -/
def UndoCmd (s : OpManagerState) : Option Nat :=
  s.undoable.getLast?.map (·.cmd)

/-- `OpManager.RedoCmd` (src/unnamed/part_001, lines 358-363). -/
def RedoCmd (s : OpManagerState) : Option Nat :=
  s.redoable.getLast?.map (·.cmd)

/-- The ledger effect of the goroutine body of `OpManager.Execute`
(src/unnamed/part_001, lines 285-289): run `op.Execute`, and only when
the returned error is `nil` record the operation as done.  `err = none`
models a `nil` Go error. -/
def executeFinish (s : OpManagerState) (o : Operation) (err : Option String) :
    OpManagerState :=
  if err.isNone then hasBeenDone s o else s

/-- The ledger effect of the goroutine body of `OpManager.Undo`
(src/unnamed/part_001, lines 312-316). -/
def undoFinish (s : OpManagerState) (o : Operation) (err : Option String) :
    OpManagerState :=
  if err.isNone then hasBeenUndone s o else s

/-- The ledger effect of the goroutine body of `OpManager.Redo`
(src/unnamed/part_001, lines 330-334). -/
def redoFinish (s : OpManagerState) (o : Operation) (err : Option String) :
    OpManagerState :=
  if err.isNone then hasBeenRedone s o else s

/-- Reachability of a ledger state by completed manager calls exactly as
the source performs them: `hasBeenDone`, `hasBeenUndone` and
`hasBeenRedone` are applied without any precondition (the engine never
checks whether an operation is already present in a list), and failed
calls leave the state unchanged and hence add no new states. -/
inductive OpMReach : OpManagerState → Prop
  | init : OpMReach ⟨[], []⟩
  | done {s : OpManagerState} {o : Operation} :
      OpMReach s → OpMReach (hasBeenDone s o)
  | undone {s : OpManagerState} {o : Operation} :
      OpMReach s → OpMReach (hasBeenUndone s o)
  | redone {s : OpManagerState} {o : Operation} :
      OpMReach s → OpMReach (hasBeenRedone s o)

/-- Reachability under the disciplined usage pattern the engine is built
for: operations are recorded as done only when not already present in
either list, recorded as undone only when currently undoable, and
recorded as redone only when currently redoable. -/
inductive GReach : OpManagerState → Prop
  | init : GReach ⟨[], []⟩
  | done {s : OpManagerState} {o : Operation} :
      GReach s → o ∉ s.undoable → o ∉ s.redoable → GReach (hasBeenDone s o)
  | undone {s : OpManagerState} {o : Operation} :
      GReach s → o ∈ s.undoable → o ∉ s.redoable → GReach (hasBeenUndone s o)
  | redone {s : OpManagerState} {o : Operation} :
      GReach s → o ∈ s.redoable → o ∉ s.undoable → GReach (hasBeenRedone s o)

/-- The ledger invariant claimed by the spec: no duplicates within a
list, and the two lists are mutually exclusive (the second condition is
equivalent to its converse). -/
def ledgerInv (s : OpManagerState) : Prop :=
  s.undoable.Nodup ∧ s.redoable.Nodup ∧ ∀ o ∈ s.undoable, o ∉ s.redoable

end Commands

namespace Projects

/-- `Config` (src/unnamed/part_001, lines 87-89): the storage limit,
where `UnlimitedStorage = 0` disables the cap. -/
structure Config where
  storageLimit : Int
deriving DecidableEq, Repr

/-- `Defaults` (src/unnamed/part_001, line 93): the zero `Config`. -/
def Defaults : Config := ⟨0⟩

/-- State of the ID-based `OpManager` (src/unnamed/part_001,
lines 70-81): the `InProgress` chain, the `opStorage` map modelled by
its list of keys (Go map assignment adds a key only when absent), and
the configuration.  The `Done`/`Redoable` chains and the stored values
play no role in the claims about this variant. -/
structure POpManager where
  inProgress : List Int
  storageKeys : List Int
  config : Config
deriving DecidableEq, Repr

/-- Errors of the ID-based variant: `ErrToManyConfig`, `ErrOutOfMemory`,
and the run-time fault of indexing an empty slice (the `config[0]`
access in `NewOpManager`). -/
inductive PErr
  | tooManyConfig
  | outOfMemory
  | panicIndexOutOfRange
deriving DecidableEq, Repr

/-- `NewOpManager` of the `projects` variant (src/unnamed/part_001,
lines 96-113), translated exactly as written: more than one config is
rejected; then `if len(config) == 0` the source reads `config[0]` —
an out-of-range index, modelled as the panic error — and otherwise
(exactly one config supplied) it uses `Defaults`, ignoring the supplied
configuration. -/
def newOpManagerP (config : List Config) : Except PErr POpManager :=
  if config.length > 1 then .error .tooManyConfig
  else if config.length == 0 then
    match config.head? with
    | some c => .ok ⟨[], [], c⟩
    | none => .error .panicIndexOutOfRange
  else .ok ⟨[], [], Defaults⟩

/-- `NewOpManager` of the `commands` sibling variant (src/unnamed/part_001,
lines 530-547) and likewise `New` (src/undo.go, lines 48-65): more than
one config is rejected, one supplied config is used, none means
`Defaults`. -/
def newOpManagerC (config : List Config) : Except PErr POpManager :=
  if config.length > 1 then .error .tooManyConfig
  else
    match config.head? with
    | some c => .ok ⟨[], [], c⟩
    | none => .ok ⟨[], [], Defaults⟩

/-- Inserting a key into the `opStorage` map (src/unnamed/part_001,
line 594: `mgr.opStorage[op.ID()] = op`): the key set grows only when
the key is new. -/
def pInsertKey (l : List Int) (k : Int) : List Int :=
  if k ∈ l then l else l ++ [k]

/-- `Execute` of the ID-based variant (src/unnamed/part_001,
lines 588-597, identical to lines 154-163): error when the limit is
positive and `len(opStorage) > StorageLimit`, checked before inserting;
otherwise store the operation and append it to `InProgress`. -/
def pExecute (m : POpManager) (opId : Int) : Except PErr POpManager :=
  if m.config.storageLimit > 0 ∧ (m.storageKeys.length : Int) > m.config.storageLimit then
    .error .outOfMemory
  else
    .ok { m with storageKeys := pInsertKey m.storageKeys opId,
                 inProgress := m.inProgress ++ [opId] }

/-- Two's-complement wrap-around of Go's 64-bit `int`, the underlying
type of `CmdID` and `OpID` (src/unnamed/part_001, lines 25 and 44).
9223372036854775808 is 2 to the 63rd power and 18446744073709551616 is
2 to the 64th. -/
def wrap64 (x : Int) : Int :=
  (x + 9223372036854775808) % 18446744073709551616 - 9223372036854775808

/-- The value returned by the k-th call of `NewOpID`
(src/unnamed/part_001, lines 143-148) on one manager instance:
`mgr.opIDCount++` starting from the zero value 0, with 64-bit
wrap-around.  `NewCmdID` (lines 116-121) increments its own
`cmdIDCount` field with the identical body. -/
def idCounterAfter : Nat → Int
  | 0 => 0
  | k + 1 => wrap64 (idCounterAfter k + 1)

/-- The k-th `NewOpID` result of a manager instance. -/
def opIDAfter (k : Nat) : Int := idCounterAfter k

/-- The k-th `NewCmdID` result of a manager instance. -/
def cmdIDAfter (k : Nat) : Int := idCounterAfter k

end Projects

namespace Undo

/-- Embedding of the `op` struct of src/undo.go (lines 29-33): an undo
function `fn`, a redo function `redoFn`, and a display name.  A Go
function value that may be `nil` is modelled as an `Option Bool`, where
`some b` is a function whose call returns a `nil` error exactly when
`b = true`, and `none` is a `nil` function. -/
structure UOp where
  name : String
  fn : Option Bool
  redoFn : Option Bool
deriving DecidableEq, Repr

/-- Errors surfaced by the `UndoManager` of src/undo.go.  `opFailed`
stands for the error returned by the operation's own function, and
`nilFunction` models the run-time fault of calling a `nil` function. -/
inductive UErr
  | cantUndo
  | cantRedo
  | opFailed
  | nilFunction
deriving DecidableEq, Repr

/-- State of `UndoManager` (src/undo.go, lines 36-44): the undo and redo
stacks (Go appends at the end, so the top is the last element) and
whether the master context `mainCtx` has been cancelled by `mainCancel`. -/
structure UndoManagerState where
  undoStack : List UOp
  redoStack : List UOp
  mainCancelled : Bool
deriving DecidableEq, Repr

/-- A fresh manager as built by `New` (src/undo.go, lines 58-64): empty
stacks and a not-yet-cancelled master context. -/
def uNew : UndoManagerState := ⟨[], [], false⟩

/-- `UndoManager.Add` (src/undo.go, lines 106-111): push an op whose
`fn` is the undo function and whose `redoFn` is the redo function. -/
def uAdd (s : UndoManagerState) (name : String) (undoFn redoFn : Option Bool) :
    UndoManagerState :=
  { s with undoStack := s.undoStack ++ [⟨name, undoFn, redoFn⟩] }

/-- `UndoManager.CanUndo` (src/undo.go, lines 114-118). -/
def uCanUndo (s : UndoManagerState) : Bool := s.undoStack.length > 0

/-- `UndoManager.CanRedo` (src/undo.go, lines 158-162). -/
def uCanRedo (s : UndoManagerState) : Bool := s.redoStack.length > 0

/-- `UndoManager.Undo` (src/undo.go, lines 142-155) together with
`popUndo` (lines 130-139): pop the top of the undo stack first (empty
stack: return `ErrCantUndo` with the state unchanged), run its `fn`, and
only on a `nil` error push `op{name: o.name, fn: o.redoFn}` onto the
redo stack.  On error the popped entry is not restored. -/
def uUndo (s : UndoManagerState) : UndoManagerState × Option UErr :=
  match s.undoStack.getLast? with
  | none => (s, some .cantUndo)
  | some o =>
    let s1 : UndoManagerState := { s with undoStack := s.undoStack.dropLast }
    match o.fn with
    | none => (s1, some .nilFunction)
    | some ok =>
      if ok then
        ({ s1 with redoStack := s1.redoStack ++ [⟨o.name, o.redoFn, none⟩] }, none)
      else (s1, some .opFailed)

/-- `UndoManager.Redo` (src/undo.go, lines 186-192) together with
`popRedo` (lines 174-183): pop the top of the redo stack (empty stack:
`ErrCantRedo`, state unchanged) and return `op.fn(ctx)`.  Note the
source pushes nothing back onto the undo stack. -/
def uRedo (s : UndoManagerState) : UndoManagerState × Option UErr :=
  match s.redoStack.getLast? with
  | none => (s, some .cantRedo)
  | some o =>
    let s1 : UndoManagerState := { s with redoStack := s.redoStack.dropLast }
    match o.fn with
    | none => (s1, some .nilFunction)
    | some ok => if ok then (s1, none) else (s1, some .opFailed)

/-- A context derived from the manager's master context by
`UndoManager.WithCancel` (src/undo.go, lines 68-70): it records only
whether its own cancel function has been fired; whether it is cancelled
also depends on the master context (Go contexts propagate cancellation
from parent to child). -/
structure UCtx where
  ownFired : Bool
deriving DecidableEq, Repr

/-- `UndoManager.WithCancel` (src/undo.go, lines 68-70):
`context.WithCancel(mgr.mainCtx)` — a child of the master context whose
own cancel function has not yet been called. -/
def uWithCancel (_s : UndoManagerState) : UCtx := ⟨false⟩

/-- Whether a context derived from the master context is cancelled
(its `Done` channel closed): true when the master context has been
cancelled or its own cancel function fired — the propagation semantics
of Go's `context.WithCancel`. -/
def uCtxCancelled (s : UndoManagerState) (c : UCtx) : Bool :=
  s.mainCancelled || c.ownFired

/-- `UndoManager.CancelAll` (src/undo.go, lines 83-87): calls
`mgr.mainCancel()`, cancelling the master context itself. -/
def uCancelAll (s : UndoManagerState) : UndoManagerState :=
  { s with mainCancelled := true }

end Undo

namespace Commands

/-- Embedding of the `Cancelation` struct of the `commands` engine
(src/unnamed/part_001, lines 184-189): a sequence id, the derived
context (modelled by an identity, `none` for a `nil` context), and
whether the cancel function `f` is set.  `withCancel` never sets the
`mgr` back-reference, so `Cancel` never reaches `removeCancelation`;
the field is therefore constantly `nil` and not modelled. -/
structure Cancelation where
  id : Nat
  ctx : Option Nat
  hasF : Bool
deriving DecidableEq, Repr

/-- The Go zero value of `Cancelation`: id 0, `nil` context, `nil`
cancel function. -/
def Cancelation.zeroValue : Cancelation := ⟨0, none, false⟩

/-- The Cancellation Registry slice of `OpManager` (src/unnamed/part_001,
line 215) plus the cancellation status of the contexts it created:
`cancelledCtxs` lists the identities of derived contexts whose cancel
function has been invoked, and `nextCtx` is the next fresh context
identity (each call of `context.WithCancel` creates a distinct context). -/
structure CancelRegistry where
  cancelations : List Cancelation
  cancelledCtxs : List Nat
  nextCtx : Nat
deriving DecidableEq, Repr

/-- `OpManager.withCancel` (src/unnamed/part_001, lines 367-375): assign
id `len(cancelations) + 1`, derive a fresh cancellable context, store
the token, return it.  The token's `mgr` field is left `nil` by the
source. -/
def withCancel (s : CancelRegistry) : CancelRegistry × Cancelation :=
  let n := s.cancelations.length + 1
  let c : Cancelation := ⟨n, some s.nextCtx, true⟩
  ({ s with cancelations := s.cancelations ++ [c], nextCtx := s.nextCtx + 1 }, c)

/-- `OpManager.CancelAll` (src/unnamed/part_001, lines 397-403): invoke
`c.Cancel()` on each registered token.  `Cancel` fires the token's
cancel function `f` (cancelling its context); since tokens built by
`withCancel` carry a `nil` `mgr`, `removeCancelation` is skipped and the
registry slice is left intact. -/
def CancelAll (s : CancelRegistry) : CancelRegistry :=
  { s with cancelledCtxs := s.cancelledCtxs ++ s.cancelations.filterMap (·.ctx) }

/-- The synchronous portion of `OpManager.Execute` (src/unnamed/part_001,
lines 277-292) as seen by the caller when the spawned goroutine has not
yet run: the local `var cancel Cancelation` holds the zero value, the
goroutine that would assign `cancel = mgr.withCancel(ctx)` is merely
scheduled, and the zero value is returned with the registry untouched.
(`Undo` and `Redo`, lines 304-319 and 322-337, have the identical
shape.) -/
def executeReturn (s : CancelRegistry) : CancelRegistry × Cancelation :=
  (s, Cancelation.zeroValue)

/-- Lifecycle phase of one task spawned by `Execute`/`Undo`/`Redo` of
the `commands` engine (src/unnamed/part_001, lines 280-292): `spawned`
(the goroutine exists but has not yet executed `mgr.wg.Add(1)`), `added`
(the counter was incremented, the action is running), `done` (the
completion callback fired and `wg.Done` ran). -/
inductive TaskPhase
  | spawned
  | added
  | done
deriving DecidableEq, Repr

/-- The value of the `sync.WaitGroup` counter: `wg.Add(1)` is executed
as the first statement of the goroutine body and `wg.Done` is deferred,
so exactly the tasks in phase `added` are counted. -/
def wgCounter (ts : List TaskPhase) : Nat :=
  (ts.filter (· = TaskPhase.added)).length

/-- Whether `mgr.wg.Wait()` — the body of `WaitAll` (src/unnamed/part_001,
lines 406-408) — returns: it does exactly when the counter is zero. -/
def waitAllReturns (ts : List TaskPhase) : Bool := wgCounter ts == 0

/-- Whether `OpManager.Shutdown` (src/unnamed/part_001, lines 414-419)
returns: after the optional `CancelAll` (which does not touch the wait
group) it calls `WaitAll`, so it returns exactly when `wg.Wait` does. -/
def shutdownReturns (_cancelInFlight : Bool) (ts : List TaskPhase) : Bool :=
  waitAllReturns ts

/-- Whether a task's completion callback `final(result, err)` has fired:
only in phase `done`. -/
def taskCallbackFired : TaskPhase → Bool
  | .done => true
  | _ => false

/-- Interleaving steps of the engine's tasks: a caller launches a new
goroutine (`Execute`/`Undo`/`Redo` return immediately after `go func`),
a spawned goroutine gets scheduled and runs `wg.Add(1)`, or a running
task finishes its action, fires its callback and runs `wg.Done`. -/
inductive TaskStep : List TaskPhase → List TaskPhase → Prop
  | launch (ts : List TaskPhase) : TaskStep ts (ts ++ [.spawned])
  | add (l r : List TaskPhase) :
      TaskStep (l ++ [.spawned] ++ r) (l ++ [.added] ++ r)
  | finish (l r : List TaskPhase) :
      TaskStep (l ++ [.added] ++ r) (l ++ [.done] ++ r)

/-- Reachability of a task configuration from the idle engine by
interleaved scheduling. -/
def TaskReach (ts : List TaskPhase) : Prop :=
  Relation.ReflTransGen TaskStep [] ts

end Commands

/-! Helper lemmas about `removeFirst`, the Go splice-and-break loop. -/

namespace Commands

theorem removeFirst_sublist (l : List Operation) (a : Operation) :
    List.Sublist (removeFirst l a) l := by
  induction l with
  | nil => simp [removeFirst]
  | cons hd t ih =>
    by_cases hc : hd = a
    · simp only [removeFirst, if_pos hc]
      exact List.sublist_cons_self hd t
    · simp only [removeFirst, if_neg hc]
      exact List.Sublist.cons₂ hd ih

theorem mem_of_mem_removeFirst {l : List Operation} {a x : Operation}
    (h : x ∈ removeFirst l a) : x ∈ l :=
  (removeFirst_sublist l a).subset h

theorem nodup_removeFirst {l : List Operation} (a : Operation)
    (h : l.Nodup) : (removeFirst l a).Nodup :=
  h.sublist (removeFirst_sublist l a)

theorem not_mem_removeFirst_self {l : List Operation} {a : Operation}
    (h : l.Nodup) : a ∉ removeFirst l a := by
  induction l with
  | nil => simp [removeFirst]
  | cons hd t ih =>
    rw [List.nodup_cons] at h
    by_cases hc : hd = a
    · simp only [removeFirst, if_pos hc]
      subst hc
      exact h.1
    · simp only [removeFirst, if_neg hc]
      intro hmem
      rcases List.mem_cons.mp hmem with heq | hmem2
      · exact hc heq.symm
      · exact ih h.2 hmem2

end Commands

/-! Theorems settling the claims. -/

namespace Commands

/-- C1: after a successful execute, then a successful undo, then a
successful redo of the same operation, the operation is back on top of
the undoable list, so `UndoCmd` returns its command.  This holds from an
arbitrary prior ledger state; `err = none` in each finish step is the
`nil` Go error of a successful action. -/
theorem c1_round_trip (s : OpManagerState) (o : Operation) :
    UndoCmd (redoFinish (undoFinish (executeFinish s o none) o none) o none) =
      some o.cmd := by
  simp [executeFinish, undoFinish, redoFinish, hasBeenDone, hasBeenUndone,
    hasBeenRedone, UndoCmd, List.getLast?_concat]

end Commands

namespace Projects

/-- C2: with `StorageLimit = 1`, recording distinct operations from a
fresh manager: the 1st and — contrary to the claim — also the 2nd
(that is, the (N+1)-th) attempt succeed, and only the 3rd attempt
returns the capacity error.  The check `len(opStorage) > StorageLimit`
runs before insertion, so the manager admits N+1 operations before it
ever errors.  With the unbounded sentinel 0 no attempt ever errors. -/
theorem c2_capacity_off_by_one :
    pExecute ⟨[], [], ⟨1⟩⟩ 1 = .ok ⟨[1], [1], ⟨1⟩⟩ ∧
    pExecute ⟨[1], [1], ⟨1⟩⟩ 2 = .ok ⟨[1, 2], [1, 2], ⟨1⟩⟩ ∧
    pExecute ⟨[1, 2], [1, 2], ⟨1⟩⟩ 3 = .error .outOfMemory ∧
    ∀ (ip keys : List Int) (opId : Int),
      ∃ m, pExecute ⟨ip, keys, ⟨0⟩⟩ opId = .ok m := by
  refine ⟨rfl, rfl, rfl, ?_⟩
  intro ip keys opId
  refine ⟨⟨ip ++ [opId], pInsertKey keys opId, ⟨0⟩⟩, ?_⟩
  simp [pExecute]

end Projects

namespace Commands

/-- C4: the handle returned synchronously by `Execute` before the
spawned goroutine has run is the zero-valued `Cancelation`: its cancel
trigger `f` is `nil` (invoking it would fault rather than cancel) and
nothing has been registered.  The local `cancel` is only assigned inside
the goroutine, so the caller can receive this unset handle. -/
theorem c4_handle_unset_at_return (s : CancelRegistry) :
    (executeReturn s).2.hasF = false ∧
    (executeReturn s).2.ctx = none ∧
    (executeReturn s).1 = s := by
  exact ⟨rfl, rfl, rfl⟩

/-- C5: a configuration with one task launched by `Execute` whose
goroutine has not yet been scheduled is reachable, yet `Shutdown(true)`
already returns there (the wait-group counter is still zero because
`wg.Add(1)` runs inside the goroutine) while the task's completion
callback has not fired — refuting the drain guarantee as implemented. -/
theorem c5_shutdown_early_return :
    TaskReach [TaskPhase.spawned] ∧
    shutdownReturns true [TaskPhase.spawned] = true ∧
    taskCallbackFired TaskPhase.spawned = false := by
  refine ⟨Relation.ReflTransGen.single (TaskStep.launch []), by decide, by decide⟩

end Commands

namespace Projects

/-- C9: evaluation of the two constructor variants.  The `projects`
variant `NewOpManager` (src/unnamed/part_001, lines 96-113) panics with
an index-out-of-range fault when no configuration is supplied and uses
`Defaults` instead of the supplied configuration when exactly one is
given, while the sibling variant (lines 530-547, identical to `New` in
src/undo.go) behaves as the claim states. -/
theorem c9_construct_check :
    newOpManagerP [] = .error .panicIndexOutOfRange ∧
    newOpManagerP [⟨5⟩] = .ok ⟨[], [], Defaults⟩ ∧
    Defaults ≠ (⟨5⟩ : Config) ∧
    newOpManagerP [⟨5⟩, ⟨6⟩] = .error .tooManyConfig ∧
    newOpManagerC [] = .ok ⟨[], [], Defaults⟩ ∧
    newOpManagerC [⟨5⟩] = .ok ⟨[], [], ⟨5⟩⟩ ∧
    newOpManagerC [⟨5⟩, ⟨6⟩] = .error .tooManyConfig := by
  refine ⟨rfl, rfl, by decide, rfl, rfl, rfl, rfl⟩

end Projects

namespace Undo

/-- C8: requesting undo (resp. redo) with an empty undo (resp. redo)
stack returns `ErrCantUndo` (resp. `ErrCantRedo`) synchronously with the
manager state unchanged; `Undo`/`Redo` in src/undo.go run on the
caller's thread and launch nothing. -/
theorem c8_empty_history_error (s : UndoManagerState) :
    (s.undoStack = [] → uUndo s = (s, some .cantUndo)) ∧
    (s.redoStack = [] → uRedo s = (s, some .cantRedo)) := by
  constructor
  · intro h
    simp [uUndo, h]
  · intro h
    simp [uRedo, h]

/-- Witness for `c8_empty_history_error` at the fresh manager built by
`New`. -/
theorem c8_empty_history_error_witness :
    uUndo uNew = (uNew, some .cantUndo) ∧ uRedo uNew = (uNew, some .cantRedo) :=
  ⟨(c8_empty_history_error uNew).1 rfl, (c8_empty_history_error uNew).2 rfl⟩

/-- Counterexample to C3 as stated: on a manager whose undo stack holds
one operation whose undo function fails, `Undo` pops the entry before
running the function and does not restore it on error, so the call
returns the operation's error with the undo stack emptied — the history
is not left as it was. -/
theorem c3_failed_undo_changes_history :
    uUndo ⟨[⟨"a", some false, some true⟩], [], false⟩ =
      (⟨[], [], false⟩, some .opFailed) ∧
    (⟨[], [], false⟩ : UndoManagerState) ≠
      ⟨[⟨"a", some false, some true⟩], [], false⟩ := by
  refine ⟨by decide, by decide⟩

/-- C3 (amended): in the `commands` engine a failed execute, undo or
redo leaves both ledger lists exactly as they were; in the
`UndoManager` of src/undo.go, however, a failed `Undo` (resp. `Redo`)
has already popped the entry off the undo (resp. redo) stack and does
not restore it — the entry is silently dropped. -/
theorem c3_failure_atomicity :
    (∀ (s : Commands.OpManagerState) (o : Commands.Operation) (e : String),
       Commands.executeFinish s o (some e) = s ∧
       Commands.undoFinish s o (some e) = s ∧
       Commands.redoFinish s o (some e) = s) ∧
    (∀ (us rs : List UOp) (mc : Bool) (o : UOp),
       o.fn = some false →
       uUndo ⟨us ++ [o], rs, mc⟩ = (⟨us, rs, mc⟩, some .opFailed)) ∧
    (∀ (us rs : List UOp) (mc : Bool) (o : UOp),
       o.fn = some false →
       uRedo ⟨us, rs ++ [o], mc⟩ = (⟨us, rs, mc⟩, some .opFailed)) := by
  refine ⟨fun s o e => ⟨rfl, rfl, rfl⟩, ?_, ?_⟩
  · intro us rs mc o h
    simp [uUndo, List.getLast?_concat, List.dropLast_concat, h]
  · intro us rs mc o h
    simp [uRedo, List.getLast?_concat, List.dropLast_concat, h]

/-- Witness for `c3_failure_atomicity` at concrete inputs. -/
theorem c3_failure_atomicity_witness :
    Commands.executeFinish ⟨[], []⟩ ⟨0, 0⟩ (some "boom") = ⟨[], []⟩ ∧
    uUndo ⟨[⟨"a", some false, none⟩], [], false⟩ =
      (⟨[], [], false⟩, some .opFailed) :=
  ⟨(c3_failure_atomicity.1 ⟨[], []⟩ ⟨0, 0⟩ "boom").1,
   c3_failure_atomicity.2.1 [] [] false ⟨"a", some false, none⟩ rfl⟩

/-- Counterexample to C7 as stated: on the `UndoManager` of src/undo.go,
after `CancelAll` a context obtained from `WithCancel` — registered
after the call, its own cancel function never fired — is nevertheless
already cancelled, because `CancelAll` cancelled the master context
every later context is derived from.  It is not usable. -/
theorem c7_post_cancel_token_cancelled :
    uWithCancel (uCancelAll uNew) = ⟨false⟩ ∧
    uCtxCancelled (uCancelAll uNew) (uWithCancel (uCancelAll uNew)) = true :=
  ⟨rfl, rfl⟩

end Undo

namespace Commands

/-- Counterexample to C6 as stated: recording the same operation as done
twice — nothing in the engine prevents a second `Execute` of an
operation already in the history — reaches a state whose undoable list
holds that operation twice, violating the claimed invariant. -/
theorem c6_duplicate_reachable :
    OpMReach ⟨[⟨0, 0⟩, ⟨0, 0⟩], []⟩ ∧ ¬ ledgerInv ⟨[⟨0, 0⟩, ⟨0, 0⟩], []⟩ := by
  constructor
  · have h0 : OpMReach (hasBeenDone (hasBeenDone ⟨[], []⟩ ⟨0, 0⟩) ⟨0, 0⟩) :=
      OpMReach.done (OpMReach.done OpMReach.init)
    simpa [hasBeenDone] using h0
  · intro h
    exact absurd h.1 (by decide)

/-- C6 (amended): the ledger invariant — no duplicates in either list
and mutual exclusivity — holds in every state reachable under the
disciplined usage the engine is built for: an operation is executed only
when not already in the ledger, undone only while undoable, redone only
while redoable.  Failed calls leave the state unchanged. -/
theorem c6_ledger_invariant {s : OpManagerState} (h : GReach s) :
    ledgerInv s := by
  induction h with
  | init => exact ⟨List.nodup_nil, List.nodup_nil, by simp⟩
  | done hre hu hr ih =>
    obtain ⟨n1, n2, disj⟩ := ih
    refine ⟨?_, n2, ?_⟩
    · rw [show (hasBeenDone _ _).undoable = _ ++ [_] from rfl, List.nodup_append]
      exact ⟨n1, List.nodup_singleton _,
        fun x hx hmem => hu (List.mem_singleton.mp hmem ▸ hx)⟩
    · intro x hx
      rcases List.mem_append.mp hx with h1 | h1
      · exact disj x h1
      · rw [List.mem_singleton] at h1
        subst h1
        exact hr
  | undone hre hm hr ih =>
    obtain ⟨n1, n2, disj⟩ := ih
    refine ⟨nodup_removeFirst _ n1, ?_, ?_⟩
    · rw [show (hasBeenUndone _ _).redoable = _ ++ [_] from rfl, List.nodup_append]
      exact ⟨n2, List.nodup_singleton _,
        fun x hx hmem => hr (List.mem_singleton.mp hmem ▸ hx)⟩
    · intro x hx
      have hxl : x ∈ _ := mem_of_mem_removeFirst hx
      intro hmem
      rcases List.mem_append.mp hmem with h1 | h1
      · exact disj x hxl h1
      · rw [List.mem_singleton] at h1
        subst h1
        exact not_mem_removeFirst_self n1 hx
  | redone hre hm hu ih =>
    obtain ⟨n1, n2, disj⟩ := ih
    refine ⟨?_, nodup_removeFirst _ n2, ?_⟩
    · rw [show (hasBeenRedone _ _).undoable = _ ++ [_] from rfl, List.nodup_append]
      exact ⟨n1, List.nodup_singleton _,
        fun x hx hmem => hu (List.mem_singleton.mp hmem ▸ hx)⟩
    · intro x hx
      rcases List.mem_append.mp hx with h1 | h1
      · intro hmem
        exact disj x h1 (mem_of_mem_removeFirst hmem)
      · rw [List.mem_singleton] at h1
        subst h1
        exact not_mem_removeFirst_self n2

/-- Witness for `c6_ledger_invariant` at the initial state. -/
theorem c6_ledger_invariant_witness : ledgerInv ⟨[], []⟩ :=
  c6_ledger_invariant GReach.init

/-- C7 (amended): in the `commands` engine, `CancelAll` fires the cancel
trigger of exactly the tokens registered at the moment of the call (the
registry slice it sweeps), and the token handed out by a `withCancel`
performed after the sweep is not among the cancelled contexts; in the
`UndoManager` of src/undo.go, by contrast, `CancelAll` cancels the
master context, so every context derived afterwards is born cancelled. -/
theorem c7_cancel_all_snapshot :
    (∀ (s : CancelRegistry) (c : Cancelation), c ∈ s.cancelations →
       ∀ x, c.ctx = some x → x ∈ (CancelAll s).cancelledCtxs) ∧
    (∀ s : CancelRegistry,
       (∀ c ∈ s.cancelations, ∀ x, c.ctx = some x → x < s.nextCtx) →
       (∀ x ∈ s.cancelledCtxs, x < s.nextCtx) →
       (withCancel (CancelAll s)).2.ctx = some s.nextCtx ∧
       s.nextCtx ∉ (withCancel (CancelAll s)).1.cancelledCtxs) ∧
    (∀ s : Undo.UndoManagerState,
       Undo.uCtxCancelled (Undo.uCancelAll s)
         (Undo.uWithCancel (Undo.uCancelAll s)) = true) := by
  refine ⟨?_, ?_, fun s => rfl⟩
  · intro s c hc x hx
    simp only [CancelAll, List.mem_append, List.mem_filterMap]
    exact Or.inr ⟨c, hc, hx⟩
  · intro s h1 h2
    refine ⟨rfl, ?_⟩
    intro hmem
    simp only [withCancel, CancelAll, List.mem_append, List.mem_filterMap] at hmem
    rcases hmem with hm | ⟨c, hc, hcx⟩
    · exact absurd (h2 _ hm) (lt_irrefl _)
    · exact absurd (h1 c hc _ hcx) (lt_irrefl _)

/-- Witness for `c7_cancel_all_snapshot` on a registry holding one
registered token. -/
theorem c7_cancel_all_snapshot_witness :
    (0 : Nat) ∈ (CancelAll ⟨[⟨1, some 0, true⟩], [], 1⟩).cancelledCtxs ∧
    (1 : Nat) ∉ (withCancel (CancelAll ⟨[⟨1, some 0, true⟩], [], 1⟩)).1.cancelledCtxs := by
  constructor
  · exact c7_cancel_all_snapshot.1 _ ⟨1, some 0, true⟩ (List.mem_singleton.mpr rfl) 0 rfl
  · refine (c7_cancel_all_snapshot.2.1 ⟨[⟨1, some 0, true⟩], [], 1⟩ ?_ ?_).2
    · intro c hc x hx
      rw [List.mem_singleton] at hc
      subst hc
      have hx2 : some (0 : Nat) = some x := hx
      injection hx2 with hx3
      subst hx3
      decide
    · intro x hx
      exact absurd hx (List.not_mem_nil x)

end Commands


namespace Projects

theorem wrap64_step (x : Int) : wrap64 (wrap64 x + 1) = wrap64 (x + 1) := by
  unfold wrap64
  omega

theorem wrap64_id_of_lt {x : Int} (h0 : 0 ≤ x)
    (h1 : x < 9223372036854775808) : wrap64 x = x := by
  unfold wrap64
  omega

theorem idCounterAfter_eq (k : Nat) : idCounterAfter k = wrap64 k := by
  induction k with
  | zero => decide
  | succ n ih =>
    show wrap64 (idCounterAfter n + 1) = wrap64 ((n + 1 : Nat) : Int)
    rw [ih, wrap64_step]
    norm_cast

/-- Counterexample to C10 as stated: the counters are 64-bit Go `int`
fields and wrap around, so the 1st call and the 18446744073709551617-th
call (one full 64-bit cycle later) of `NewOpID` on the same instance
both return 1 — two distinct calls returning the same ID. -/
theorem c10_id_wraparound :
    opIDAfter 1 = 1 ∧ opIDAfter 18446744073709551617 = 1 ∧
    (1 : Nat) ≠ 18446744073709551617 := by
  refine ⟨by decide, ?_, by decide⟩
  rw [show opIDAfter 18446744073709551617 =
        wrap64 ((18446744073709551617 : Nat) : Int) from idCounterAfter_eq _]
  decide

/-- C10 (amended): on one manager instance, `NewOpID` and `NewCmdID`
return strictly increasing positive values as long as fewer than 2^63
calls have been made (beyond that the 64-bit counter wraps), and the
k-th returned value is exactly k — a function of that instance's own
call count alone, so the streams of distinct manager instances are
independent and in particular every fresh instance starts at 1. -/
theorem c10_monotonic_ids :
    (∀ m n : Nat, m < n → (n : Int) < 9223372036854775808 →
       opIDAfter m < opIDAfter n ∧ cmdIDAfter m < cmdIDAfter n ∧
       0 < opIDAfter n ∧ 0 < cmdIDAfter n) ∧
    (∀ k : Nat, (k : Int) < 9223372036854775808 →
       opIDAfter k = k ∧ cmdIDAfter k = k) := by
  have key : ∀ k : Nat, (k : Int) < 9223372036854775808 →
      idCounterAfter k = k := by
    intro k hk
    rw [idCounterAfter_eq]
    exact wrap64_id_of_lt (Int.natCast_nonneg k) hk
  constructor
  · intro m n hmn hn
    have hmi : (m : Int) < 9223372036854775808 :=
      lt_trans (by exact_mod_cast hmn) hn
    have em : opIDAfter m = (m : Int) := key m hmi
    have en : opIDAfter n = (n : Int) := key n hn
    have hpos : 0 < n := Nat.lt_of_le_of_lt (Nat.zero_le m) hmn
    refine ⟨?_, ?_, ?_, ?_⟩
    · rw [em, en]
      exact_mod_cast hmn
    · rw [show cmdIDAfter m = (m : Int) from em,
         show cmdIDAfter n = (n : Int) from en]
      exact_mod_cast hmn
    · rw [en]
      exact_mod_cast hpos
    · rw [show cmdIDAfter n = (n : Int) from en]
      exact_mod_cast hpos
  · intro k hk
    exact ⟨key k hk, key k hk⟩

/-- Witness for `c10_monotonic_ids` at the first two calls. -/
theorem c10_monotonic_ids_witness :
    opIDAfter 1 < opIDAfter 2 ∧ 0 < opIDAfter 2 :=
  ⟨(c10_monotonic_ids.1 1 2 (by norm_num) (by norm_num)).1,
   (c10_monotonic_ids.1 1 2 (by norm_num) (by norm_num)).2.2.1⟩

end Projects
